import Mathlib

/-!
# Verification of the openapi-gen schema compiler and module partitioner

A shallow embedding, in Lean 4, of the parts of the `openapi-gen` code base that the
specification's claims are about:

* `src/Utils.ts` — `camelize`, `identifier`, `toKebabCase`, `isIdField`,
  `brandNameForId`, `toComment`;
* `src/OpenApi.ts` — the response-classification loop of `generate`, the
  per-operation decode-table emission of `operationToImpl`, and the module
  partitioner (tag grouping, `_common` extraction).

JSON values (OpenAPI fragments) are embedded as an inductive `Json`; JavaScript
object/`Map`/`Set` mutation is embedded as pure insertion-ordered association
lists, matching JS semantics (`Map.set` keeps the original insertion position on
overwrite, `Set.add` appends new elements).  JavaScript strings are embedded as
Lean `String`s; the case-mapping helpers (`toUpperCase`/`toLowerCase`) are
embedded as ASCII maps, which agrees with JS on every input the generator's
string transforms can produce (the kebab-case pipeline discards any character
outside `[a-z0-9]` after lowering, and `camelize` only case-maps ASCII letters).

`JsonSchemaGen.ts` is not part of the sources (only its tests, callers, and the
spec describe it); definitions whose doc comment starts with `Modelled from the
spec:` model that missing component from the specification's words and take its
observable behaviour (the name returned by `addSchema`, the declaration
dependency graph) as oracle parameters.
-/

set_option maxHeartbeats 1000000

namespace OpenApiGen

/-! ## ASCII character classes (the character classes of the source's regexes) -/

def isAsciiUpper (c : Char) : Bool := 65 ≤ c.toNat && c.toNat ≤ 90

def isAsciiLower (c : Char) : Bool := 97 ≤ c.toNat && c.toNat ≤ 122

def isAsciiDigit (c : Char) : Bool := 48 ≤ c.toNat && c.toNat ≤ 57

/-! ## `src/Utils.ts` -/

/-- The loop body of `camelize` (Utils.ts lines 5–26): `str` is the accumulator
string built so far, `hadSymbol` the flag that forces the next letter to upper
case.  Letters are appended (upper-cased after a symbol), digits are appended
only once the accumulator is non-empty and set the flag, anything else sets the
flag once the accumulator is non-empty. -/
def camelizeGo : List Char → List Char → Bool → List Char
  | [], str, _ => str
  | c :: rest, str, hadSymbol =>
    if isAsciiUpper c || isAsciiLower c then
      camelizeGo rest (str ++ [if hadSymbol then c.toUpper else c]) false
    else if isAsciiDigit c then
      if str.length > 0 then camelizeGo rest (str ++ [c]) true
      else camelizeGo rest str hadSymbol
    else if str.length > 0 then camelizeGo rest str true
    else camelizeGo rest str hadSymbol

/-- `camelize` from Utils.ts. -/
def camelize (self : String) : String := ⟨camelizeGo self.data [] false⟩

/-- `String.capitalize` from the effect library: upper-case the first character,
keep the rest. -/
def capitalize (s : String) : String :=
  match s.data with
  | [] => ""
  | c :: cs => ⟨c.toUpper :: cs⟩

/-- `identifier` from Utils.ts: `String.capitalize(camelize(operationId))`. -/
def identifier (operationId : String) : String := capitalize (camelize operationId)

/-- String suffix test, character-wise (JS `String.prototype.endsWith`). -/
def endsWithStr (s : String) (suffix : String) : Bool :=
  suffix.data.isSuffixOf s.data

/-- `ID_PATTERN = /^id$|Id$|_id$|ID$|^uuid$|Uuid$|_uuid$/` and
`isIdField = (key) => ID_PATTERN.test(key)` (Utils.ts lines 42–44).
`RegExp.test` succeeds iff some alternative matches somewhere in the key, i.e.
iff the key is literally `id`/`uuid` or ends with one of the anchored suffixes
`Id`, `_id`, `ID`, `Uuid`, `_uuid` (all matching is case-sensitive). -/
def isIdField (key : String) : Bool :=
  key == "id" || endsWithStr key "Id" || endsWithStr key "_id" || endsWithStr key "ID" ||
    key == "uuid" || endsWithStr key "Uuid" || endsWithStr key "_uuid"

/-- `brandNameForId` from Utils.ts lines 46–49. -/
def brandNameForId (key : String) (parentName : String) : String :=
  if key == "id" || key == "uuid" then parentName ++ capitalize key
  else identifier key

/-- `description.replace(/\*\//g, " * /")` (Utils.ts line 62): global, leftmost,
non-overlapping replacement of the two-character pattern. -/
def replaceStarSlash : List Char → List Char
  | [] => []
  | [c] => [c]
  | c :: c2 :: rest =>
    if c = '*' ∧ c2 = '/' then ' ' :: '*' :: ' ' :: '/' :: replaceStarSlash rest
    else c :: replaceStarSlash (c2 :: rest)

/-- `.split("\n").join("\n* ")` (Utils.ts line 62): insert `* ` after every
newline. -/
def starAfterNewline : List Char → List Char
  | [] => []
  | c :: rest =>
    if c = '\n' then '\n' :: '*' :: ' ' :: starAfterNewline rest
    else c :: starAfterNewline rest

/-- `toComment` from Utils.ts lines 58–64: `None` gives the empty string, `Some`
wraps the rewritten description in a JSDoc frame. -/
def toComment : Option String → String
  | none => ""
  | some description =>
    "/**\n* " ++ String.mk (starAfterNewline (replaceStarSlash description.data)) ++ "\n*/\n"

/-- Whether a character list contains the substring `*/`. -/
def containsStarSlash : List Char → Bool
  | [] => false
  | c :: rest => (c = '*' && rest.head? = some '/') || containsStarSlash rest

/-! ### `toKebabCase` (Utils.ts lines 30–40), one definition per chained regex -/

/-- `.replace(/([a-z0-9])([A-Z])/g, "$1-$2")`: insert a hyphen between a lower
letter or digit and a following upper letter; the match consumes both
characters, so scanning resumes after the upper letter. -/
def kebabStep1 : List Char → List Char
  | c1 :: c2 :: rest =>
    if (isAsciiLower c1 || isAsciiDigit c1) && isAsciiUpper c2 then
      c1 :: '-' :: c2 :: kebabStep1 rest
    else c1 :: kebabStep1 (c2 :: rest)
  | l => l

/-- Worker for `.replace(/([A-Z]+)([A-Z][a-z])/g, "$1-$2")`.  `revPending` holds
the current maximal run of upper letters, reversed.  When the run (length ≥ 2)
is followed by a lower letter, the hyphen is inserted before the run's last
upper letter and the match consumes through the lower letter. -/
def kebabStep2Go : List Char → List Char → List Char
  | revPending, [] => revPending.reverse
  | revPending, c :: rest =>
    if isAsciiUpper c then kebabStep2Go (c :: revPending) rest
    else if isAsciiLower c then
      match revPending with
      | lastU :: r1 :: rrest =>
        (r1 :: rrest).reverse ++ '-' :: lastU :: c :: kebabStep2Go [] rest
      | _ => revPending.reverse ++ c :: kebabStep2Go [] rest
    else revPending.reverse ++ c :: kebabStep2Go [] rest

def kebabStep2 (l : List Char) : List Char := kebabStep2Go [] l

/-- `.toLowerCase()`, ASCII case mapping (see the header note). -/
def toLowerChars (l : List Char) : List Char := l.map Char.toLower

/-- Worker for `.replace(/[^a-z0-9]+/g, "-")`: each maximal run of characters
outside `[a-z0-9]` becomes a single hyphen (`inRun` tracks being inside such a
run). -/
def kebabStep3Go : Bool → List Char → List Char
  | _, [] => []
  | inRun, c :: rest =>
    if isAsciiLower c || isAsciiDigit c then c :: kebabStep3Go false rest
    else if inRun then kebabStep3Go true rest
    else '-' :: kebabStep3Go true rest

def kebabStep3 (l : List Char) : List Char := kebabStep3Go false l

/-- Worker for `.replace(/[-]+/g, "-")` (written in the source with a bare `-`
in the character position): collapse hyphen runs. -/
def kebabStep4Go : Bool → List Char → List Char
  | _, [] => []
  | inRun, c :: rest =>
    if c = '-' then
      if inRun then kebabStep4Go true rest else '-' :: kebabStep4Go true rest
    else c :: kebabStep4Go false rest

def kebabStep4 (l : List Char) : List Char := kebabStep4Go false l

/-- `.replace(/^-|-$/g, "")`: remove one leading and one trailing hyphen. -/
def kebabStep5 (l : List Char) : List Char :=
  let l1 := if l.head? = some '-' then l.tail else l
  if l1.getLast? = some '-' then l1.dropLast else l1

/-- The whole regex chain of `toKebabCase`. -/
def kebabPipeline (l : List Char) : List Char :=
  kebabStep5 (kebabStep4 (kebabStep3 (toLowerChars (kebabStep2 (kebabStep1 l)))))

/-- `toKebabCase` from Utils.ts lines 30–40. -/
def toKebabCase (self : String) : String :=
  if self.length == 0 then "" else ⟨kebabPipeline self.data⟩

/-! ## JSON values (the OpenAPI document model of `src/OpenApi.ts`) -/

/-- JSON values; `obj` models a JS object as its insertion-ordered field list
(keys unique, as JS object keys are). -/
inductive Json where
  | null
  | bool (b : Bool)
  | num (n : Int)
  | str (s : String)
  | arr (elts : List Json)
  | obj (fields : List (String × Json))

/-- JS property access `j[k]` (`none` for a missing key or a non-object). -/
def getKey (j : Json) (k : String) : Option Json :=
  match j with
  | .obj fs => fs.lookup k
  | _ => none

/-- The JS `in` operator: key presence, regardless of the value. -/
def hasKey (j : Json) (k : String) : Bool := (getKey j k).isSome

/-- JS truthiness of an embedded JSON value. -/
def jsTruthy : Json → Bool
  | .null => false
  | .bool b => b
  | .num n => !(n == 0)
  | .str s => !(s == "")
  | _ => true

/-- JS `Map.set` on an insertion-ordered association list: overwrite keeps the
original position, a new key is appended. -/
def setAssoc {β : Type} (m : List (String × β)) (k : String) (v : β) :
    List (String × β) :=
  if (m.lookup k).isSome then m.map fun kv => if kv.1 == k then (k, v) else kv
  else m ++ [(k, v)]

/-- JS `Set.add`: append if new. -/
def addSet (s : List String) (x : String) : List String :=
  if x ∈ s then s else s ++ [x]

/-- `Object.assign(target, source)` for JS objects: the source's fields
override the target's in place and new fields are appended in source order.  A
non-object source contributes no fields (the generator only merges schema
objects; JS's character-spreading of string sources is never reached on
schema data). -/
def assignFields (t s : List (String × Json)) : List (String × Json) :=
  (t.map fun kv =>
    match s.lookup kv.1 with
    | some v => (kv.1, v)
    | none => kv) ++ s.filter fun kv => (t.lookup kv.1).isNone

def assign (t : Json) (s : Json) : Json :=
  match t, s with
  | .obj tf, .obj sf => .obj (assignFields tf sf)
  | _, _ => t

/-- `j[k] = v` on a JS object. -/
def setKeyJ (j : Json) (k : String) (v : Json) : Json :=
  match j with
  | .obj fs => .obj (setAssoc fs k v)
  | _ => j

/-- `j[k] ?? d` (nullish coalescing of a field read). -/
def getNullish (j : Json) (k : String) (d : Json) : Json :=
  match getKey j k with
  | some .null => d
  | some v => v
  | none => d

/-- `Array.prototype.concat` of two JSON arrays. -/
def jsConcat (a b : Json) : Json :=
  match a, b with
  | .arr x, .arr y => .arr (x ++ y)
  | _, _ => a

/-! ## `src/OpenApi.ts` — reference resolution and response classification -/

/-- `resolveRef` from OpenApi.ts lines 102–109: split the pointer on `/`, drop
the leading `#`, walk the document.  A failing walk (where the source would
crash on an undefined intermediate) is `none`. -/
def resolveRef (spec : Json) (ref : String) : Option Json :=
  ((ref.splitOn "/").drop 1).foldlM getKey spec

/-- The `while ("$ref" in response)` loop of lines 216–218, with fuel (the
source loops forever on a `$ref` cycle, and crashes on a non-string or
unresolvable `$ref`). -/
def resolveResponse (spec : Json) : Nat → Json → Option Json
  | 0, r => if hasKey r "$ref" then none else some r
  | fuel + 1, r =>
    match getKey r "$ref" with
    | some (.str ref) => (resolveRef spec ref).bind (resolveResponse spec fuel)
    | some _ => none
    | none => some r

/-- One `$ref` resolution step, as applied to an error schema (lines 240–242)
and to each `allOf` member (line 246). -/
def refResolveOnce (spec : Json) (s : Json) : Option Json :=
  if hasKey s "$ref" then
    match getKey s "$ref" with
    | some (.str r) => resolveRef spec r
    | _ => none
  else some s

/-- One iteration of the `allOf` merge loop (lines 245–250):
`Object.assign(merged, resolved)`, then
`Object.assign(merged.properties, resolved.properties ?? {})`, then
`merged.required = merged.required.concat(resolved.required ?? [])`.
The pure reading below agrees with the source's aliased in-place mutation:
after the first assign, `merged.properties` is `resolved.properties` whenever
the member has one (so the second assign is a self-assign no-op) and the old
accumulator field otherwise (the second assign then merges `{}`). -/
def mergeAllOfStep (spec : Json) (merged : Json) (member : Json) : Option Json :=
  match refResolveOnce spec member with
  | none => none
  | some resolved =>
    let m1 := assign merged resolved
    let props := getNullish m1 "properties" (.obj [])
    let m2 := setKeyJ m1 "properties" (assign props (getNullish resolved "properties" (.obj [])))
    let req := jsConcat (getNullish m2 "required" (.arr []))
      (getNullish resolved "required" (.arr []))
    some (setKeyJ m2 "required" req)

/-- Lines 239–252: resolve a top-level `$ref`; when the result declares an
`allOf` array, flatten it by folding `mergeAllOfStep` from the accumulator
`{ properties: {}, required: [] }`. -/
def resolveErrorSchema (spec : Json) (errorSchema0 : Json) : Option Json :=
  match refResolveOnce spec errorSchema0 with
  | none => none
  | some errorSchema =>
    match getKey errorSchema "allOf" with
    | some (.arr members) =>
      members.foldlM (mergeAllOfStep spec)
        (Json.obj [("properties", .obj []), ("required", .arr [])])
    | _ => some errorSchema

/-- Line 253: `if ("properties" in errorSchema)` — `some true` sends the error
schema down the tagged route (`op.objectErrorSchemas`), `some false` leaves it
plain; `none` where resolution would crash. -/
def classifyObjectError (spec : Json) (errorSchema0 : Json) : Option Bool :=
  (resolveErrorSchema spec errorSchema0).map fun e => hasKey e "properties"

/-- `Number(status[0])` (lines 231, 268): a digit character gives its value;
ASCII whitespace coerces to `0` (JS `Number` trims its string argument);
anything else — or an empty status — is NaN, embedded as `none`. -/
def firstCharNumber (s : String) : Option Nat :=
  match s.data with
  | [] => none
  | c :: _ =>
    if isAsciiDigit c then some (c.toNat - 48)
    else if c = ' ' ∨ c = '\t' ∨ c = '\n' ∨ c = '\r' then some 0
    else none

/-- `.toLowerCase()` / `.toUpperCase()`, ASCII case mapping (statuses and HTTP
method names are ASCII). -/
def jsToLower (s : String) : String := ⟨s.data.map Char.toLower⟩

def jsToUpper (s : String) : String := ⟨s.data.map Char.toUpper⟩

/-- `status.startsWith("2")` (line 526). -/
def startsWith2 (s : String) : Bool := s.data.head? == some '2'

/-- The per-operation classification state built by the response loop of
`generate` (lines 136–141 and 213–277); JS `Map`s/`Set`s as insertion-ordered
lists.  `errorFlagged` records the `gen.markAsError` calls (line 237). -/
structure OpAcc where
  successSchemas : List (String × String) := []
  errorSchemas : List (String × String) := []
  objectErrorSchemas : List String := []
  voidSchemas : List String := []
  defaultSchema : Option String := none
  streamSchema : Option String := none
  errorFlagged : List String := []
deriving Repr, DecidableEq

/-- `response.content?.["application/json"]?.schema`, with the final
truthiness test of the `if` on line 219. -/
def jsonSchemaOf (response : Json) : Option Json :=
  match ((getKey response "content").bind fun c => getKey c "application/json").bind
      (fun m => getKey m "schema") with
  | some v => if jsTruthy v then some v else none
  | none => none

/-- `response.content?.["text/event-stream"]?.schema` (lines 258–259). -/
def eventStreamSchemaOf (response : Json) : Option Json :=
  match ((getKey response "content").bind fun c => getKey c "text/event-stream").bind
      (fun m => getKey m "schema") with
  | some v => if jsTruthy v then some v else none
  | none => none

/-- Truthiness of `response.content` (line 267 tests `!response.content`). -/
def contentTruthy (response : Json) : Bool :=
  match getKey response "content" with
  | some v => jsTruthy v
  | none => false

/-- Lines 219–257: the `application/json` classification of one response.
Returns the updated accumulator and whether the source `return`ed early (the
`default` bucket, line 228, and the NaN status guard, line 233).  `addSchema`
abstracts the name returned by `gen.addSchema` (`JsonSchemaGen` is outside
src/); it receives the name hint the source passes and the schema fragment. -/
def processJsonContent (spec : Json) (addSchema : String → Json → String)
    (schemaId : String) (status : String) (acc : OpAcc) (response : Json) :
    Option (OpAcc × Bool) :=
  match jsonSchemaOf response with
  | some sch =>
    let schemaName := addSchema (schemaId ++ status) sch
    if status == "default" then some ({ acc with defaultSchema := some schemaName }, true)
    else
      let statusLower := jsToLower status
      match firstCharNumber status with
      | none => some (acc, true)
      | some d =>
        if d < 4 then
          some ({ acc with
            successSchemas := setAssoc acc.successSchemas statusLower schemaName }, false)
        else
          match classifyObjectError spec sch with
          | none => none
          | some tagged =>
            let acc1 := { acc with
              errorFlagged := addSet acc.errorFlagged schemaName,
              errorSchemas := setAssoc acc.errorSchemas statusLower schemaName }
            some (if tagged then
                { acc1 with objectErrorSchemas := addSet acc1.objectErrorSchemas schemaName }
              else acc1, false)
  | none => some (acc, false)

/-- Lines 258–266: record the first `text/event-stream` schema
(`if (!op.streamSchema && eventStreamContent?.schema)`). -/
def processStream (addSchema : String → Json → String) (schemaId : String)
    (acc : OpAcc) (response : Json) : OpAcc :=
  match acc.streamSchema with
  | some _ => acc
  | none =>
    match eventStreamSchemaOf response with
    | some v => { acc with streamSchema := some (addSchema (schemaId ++ "StreamEvent") v) }
    | none => acc

/-- Lines 267–272: a response with no (truthy) `content` and a status whose
first character is a digit below 4 is recorded as void. -/
def processVoid (status : String) (acc : OpAcc) (response : Json) : OpAcc :=
  if contentTruthy response then acc
  else
    match firstCharNumber status with
    | some d =>
      if d < 4 then { acc with voidSchemas := addSet acc.voidSchemas (jsToLower status) }
      else acc
    | none => acc

/-- Lines 214–273: process one `[status, response]` entry of
`operation.responses` (resolve the response `$ref`s, classify JSON content,
then — unless the json branch returned early — the stream and void checks). -/
def processResponse (fuel : Nat) (spec : Json) (addSchema : String → Json → String)
    (schemaId : String) (acc : OpAcc) (entry : String × Json) : Option OpAcc :=
  match resolveResponse spec fuel entry.2 with
  | none => none
  | some response =>
    match processJsonContent spec addSchema schemaId entry.1 acc response with
    | none => none
    | some (acc2, earlyReturn) =>
      if earlyReturn then some acc2
      else some (processVoid entry.1 (processStream addSchema schemaId acc2 response) response)

/-- Lines 275–277: with no explicit success schema, the `default` response
becomes the success schema under the `2xx` bucket (JS truthiness: an
empty-string name is falsy). -/
def applyDefaultFallback (acc : OpAcc) : OpAcc :=
  match acc.defaultSchema with
  | some d =>
    if acc.successSchemas.isEmpty && !(d == "") then
      { acc with successSchemas := setAssoc acc.successSchemas "2xx" d }
    else acc
  | none => acc

/-- Helper for lines 278–283 (`if (x) op.schemaNames.add(x)`). -/
def addOptName (ns : List String) : Option String → List String
  | some p => if p == "" then ns else addSet ns p
  | none => ns

/-- Lines 278–283: the `op.schemaNames` set, in insertion order. -/
def opSchemaNames (params payload : Option String) (acc : OpAcc) : List String :=
  let ns := addOptName [] params
  let ns := addOptName ns payload
  let ns := acc.successSchemas.foldl (fun a kv => addSet a kv.2) ns
  let ns := acc.errorSchemas.foldl (fun a kv => addSet a kv.2) ns
  let ns := addOptName ns acc.defaultSchema
  addOptName ns acc.streamSchema

/-- The fields of one spec operation that the embedded part of `generate`
reads.  `params`/`payload` stand for the names `gen.addSchema` returned for
the parameter/request-body schemas (the parameter flattening of lines 144–212
is not needed by any claim). -/
structure OperationInput where
  operationId : Option String := none
  method : String := "get"
  path : String := "/"
  tags : Option (List String) := none
  params : Option String := none
  payload : Option String := none
  responses : List (String × Json) := []

/-- Lines 117–119: `operation.operationId ? camelize(operation.operationId) :
method.toUpperCase() + path` (JS truthiness: an empty `operationId` string is
falsy and falls through to the method+path form). -/
def operationIdOf (o : OperationInput) : String :=
  match o.operationId with
  | some opId => if opId == "" then jsToUpper o.method ++ o.path else camelize opId
  | none => jsToUpper o.method ++ o.path

structure ParsedOp where
  id : String
  tags : List String
  acc : OpAcc
  schemaNames : List String
deriving Repr, DecidableEq

/-- Lines 116–284: parse one operation — the id (lines 117–119), the tag list
(line 120, `?? ["_untagged"]`), the schema-id hint (line 143,
`identifier(operationId ?? path)` — nullish, so an empty string is kept), the
response-classification fold, the default fallback, and `schemaNames`. -/
def parseOperation (fuel : Nat) (spec : Json) (addSchema : String → Json → String)
    (o : OperationInput) : Option ParsedOp :=
  let schemaId := identifier (o.operationId.getD o.path)
  match o.responses.foldlM (processResponse fuel spec addSchema schemaId) {} with
  | none => none
  | some acc0 =>
    let acc := applyDefaultFallback acc0
    some { id := operationIdOf o
           tags := o.tags.getD ["_untagged"]
           acc := acc
           schemaNames := opSchemaNames o.params o.payload acc }

/-! ## `src/OpenApi.ts` — emitted decode table (`operationToImpl`) -/

/-- Lines 523–543: the entries of the emitted
`HttpClientResponse.matchStatus` record, in order — success decoders with the
single-success `2xx` normalization (lines 524–526), error decoders (decoding
the `…Body` struct and wrapping it in the tagged error when the schema was
classified an object error, otherwise failing with the decoded value itself),
void handlers, and the final `orElse: unexpectedStatus` fall-through. -/
def decodeLines (acc : OpAcc) : List String :=
  let single := acc.successSchemas.length == 1
  let succ := acc.successSchemas.map fun kv =>
    let statusCode := if single && startsWith2 kv.1 then "2xx" else kv.1
    "\x22" ++ statusCode ++ "\x22: (response) => HttpClientResponse.schemaBodyJson(" ++
      kv.2 ++ ")(response)"
  let errs := acc.errorSchemas.map fun kv =>
    if kv.2 ∈ acc.objectErrorSchemas then
      "\x22" ++ kv.1 ++ "\x22: (response) => HttpClientResponse.schemaBodyJson(" ++ kv.2 ++
        "Body)(response).pipe(Effect.map((body) => new " ++ kv.2 ++
        "(body)), Effect.flatMap(Effect.fail))"
    else
      "\x22" ++ kv.1 ++ "\x22: (response) => HttpClientResponse.schemaBodyJson(" ++ kv.2 ++
        ")(response).pipe(Effect.flatMap(Effect.fail))"
  let voids := acc.voidSchemas.map fun st => "\x22" ++ st ++ "\x22: () => Effect.void"
  succ ++ errs ++ voids ++ ["orElse: unexpectedStatus"]

/-- The match keys of `decodeLines` (same contents and order, keys only). -/
def decodeKeys (acc : OpAcc) : List String :=
  let single := acc.successSchemas.length == 1
  acc.successSchemas.map (fun kv => if single && startsWith2 kv.1 then "2xx" else kv.1) ++
    acc.errorSchemas.map Prod.fst ++ acc.voidSchemas

/-! ## `src/OpenApi.ts` — module partitioner (lines 289–387) -/

/-- `op.tags[0] ?? "_untagged"` (line 293). -/
def primaryTag (op : ParsedOp) : String := op.tags.head?.getD "_untagged"

/-- One step of the grouping loop (lines 292–300). -/
def addOpToGroups (gs : List (String × List ParsedOp)) (op : ParsedOp) :
    List (String × List ParsedOp) :=
  let t := primaryTag op
  if (gs.lookup t).isSome then
    gs.map fun g => if g.1 == t then (g.1, g.2 ++ [op]) else g
  else gs ++ [(t, [op])]

/-- Lines 291–300: group parsed operations by primary tag (JS `Map` insertion
order). -/
def groupByTag (ops : List ParsedOp) : List (String × List ParsedOp) :=
  ops.foldl addOpToGroups []

/-- Lines 302–311: the per-tag union of `op.schemaNames`. -/
def groupSchemaNames (ops : List ParsedOp) : List String :=
  ops.foldl (fun ns op => op.schemaNames.foldl addSet ns) []

/-- Lines 313–328: the names directly referenced by more than one tag group. -/
def commonSchemaNames (tagNames : List (String × List String)) : List String :=
  let allNames := tagNames.foldl (fun ns g => g.2.foldl addSet ns) []
  allNames.filter fun n => (tagNames.filter fun g => n ∈ g.2).length > 1

/-- One breadth step over the dependency oracle. -/
def closureStep (deps : String → List String) (names : List String) : List String :=
  names.foldl (fun acc n => (deps n).foldl addSet acc) names

/-- `k`-step-bounded transitive closure of a seed set over the dependency
oracle. -/
def closureN (deps : String → List String) : Nat → List String → List String
  | 0, seeds => seeds
  | k + 1, seeds => closureN deps k (closureStep deps seeds)

/-- Modelled from the spec: `JsonSchemaGen.generate` is code of this
repository that is not under src/ (only its tests, callers and the spec
describe it).  Per §4.7 it emits exactly the transitive closure of the name
filter over the declaration dependency graph — `deps` is an oracle for the
per-declaration reference sets, iterated `closureFuel` times (enough fuel
reaches the fixpoint of the finite graph of a generation run); per §4.8/§6, a
schema that was `markAsError`-flagged and classified as an object error
additionally emits its body-struct declaration `name ++ "Body"` alongside the
tagged wrapper. -/
def specGenerate (closureFuel : Nat) (deps : String → List String)
    (errorObjects : List String) (filter : List String) : List String :=
  let closed := closureN deps closureFuel filter
  closed ++ (closed.filter fun n => n ∈ errorObjects).map fun n => n ++ "Body"

/-- One output module: `emittedNames` stands for the declarations
`gen.generate` puts into its source (spec-modelled as `specGenerate`),
`reexports` for the names imported/re-exported from `_common`
(lines 351–366). -/
structure ModuleOut where
  emittedNames : List String
  reexports : List String
  schemaNames : List String
  operations : List ParsedOp
deriving Repr, DecidableEq

/-- Lines 354–361: the `…Body` re-export names for shared tagged-error
schemas of one tag group. -/
def errorBodyNamesOf (common : List String) (ops : List ParsedOp) : List String :=
  ops.foldl (fun acc op =>
    op.acc.objectErrorSchemas.foldl (fun acc2 n =>
      if n ∈ common ∧ (n ++ "Body") ∉ acc2 then acc2 ++ [n ++ "Body"] else acc2) acc) []

/-- Lines 341–385: the module built for one tag group — tag-only declarations
(the group's names minus the common ones, dependency-closed by
`gen.generate`), re-exports of the needed common names plus the shared
error-body names, the group's full name set, and its operations. -/
def tagModuleOf (closureFuel : Nat) (deps : String → List String)
    (errObjs common : List String) (g : String × List ParsedOp) : ModuleOut :=
  let names := groupSchemaNames g.2
  let tagOnly := names.filter fun n => n ∉ common
  let commonReexports := if common.isEmpty then [] else names.filter fun n => n ∈ common
  let bodies := errorBodyNamesOf common g.2
  { emittedNames := specGenerate closureFuel deps errObjs tagOnly
    reexports := commonReexports ++ bodies
    schemaNames := names
    operations := g.2 }

/-- The `markAsError`-and-object-classified names of a whole run (the shapes
for which `gen.generate` emits a body struct). -/
def errorObjectsOf (parsed : List ParsedOp) : List String :=
  parsed.foldl (fun acc op => op.acc.objectErrorSchemas.foldl addSet acc) []

/-- The `_common` module of lines 332–339. -/
def commonModuleOf (closureFuel : Nat) (deps : String → List String)
    (errObjs common : List String) : ModuleOut :=
  { emittedNames := specGenerate closureFuel deps errObjs common
    reexports := []
    schemaNames := common
    operations := [] }

/-- Lines 289–387 of `generate` (the partitioner), with the missing
`JsonSchemaGen.generate` spec-modelled as `specGenerate`: parse every
operation, group by primary tag, compute the per-tag direct name sets and
`commonSchemaNames`, emit the `_common` module when that set is non-empty
(lines 332–339), then one module per tag via `modules.set` (lines 341–385). -/
def generateModules (fuel closureFuel : Nat) (spec : Json)
    (addSchema : String → Json → String) (deps : String → List String)
    (ops : List OperationInput) : Option (List (String × ModuleOut)) :=
  match ops.mapM (parseOperation fuel spec addSchema) with
  | none => none
  | some parsed =>
    let groups := groupByTag parsed
    let tagNames := groups.map fun g => (g.1, groupSchemaNames g.2)
    let common := commonSchemaNames tagNames
    let errObjs := errorObjectsOf parsed
    let init : List (String × ModuleOut) :=
      if common.isEmpty then []
      else [("_common", commonModuleOf closureFuel deps errObjs common)]
    some (groups.foldl
      (fun ms g => setAssoc ms g.1 (tagModuleOf closureFuel deps errObjs common g)) init)

/-- Reachability in at most `k` steps along the dependency oracle. -/
inductive ReachesN (deps : String → List String) : Nat → String → String → Prop
  | refl (k : Nat) (n : String) : ReachesN deps k n n
  | step (k : Nat) (a b c : String) : b ∈ deps a → ReachesN deps k b c →
      ReachesN deps (k + 1) a c

/-! ## Claim-side definitions (refinement targets, written from the spec's words) -/

/-- The claim's classification target for C1, per the spec's normalizer (§4.1)
as the claim words it: the resolved fragment's kind is `object` with explicit
properties — no earlier classification of §4.1's order (boolean schema,
`$ref`, `const`, `enum`, `allOf`, `anyOf`/`oneOf`) applies, the declared
`type` (if any) is `object`, and the `properties` map is present and
non-empty. -/
def claimIsObjectWithProps (s : Json) : Bool :=
  match s with
  | .obj _ =>
    !hasKey s "$ref" && !hasKey s "const" && !hasKey s "enum" && !hasKey s "allOf" &&
      !hasKey s "anyOf" && !hasKey s "oneOf" &&
      (match getKey s "type" with
       | some (.str t) => t == "object"
       | none => true
       | _ => false) &&
      (match getKey s "properties" with
       | some (.obj props) => !props.isEmpty
       | _ => false)
  | _ => false

/-- C4's claim-side common set: the names referenced — including
transitively-required names — by two or more tag groups. -/
def claimCommonSet (closureFuel : Nat) (deps : String → List String)
    (tagNames : List (String × List String)) : List String :=
  let refd := tagNames.map fun g => (g.1, closureN deps closureFuel g.2)
  let allNames := refd.foldl (fun ns g => g.2.foldl addSet ns) []
  allNames.filter fun n => (refd.filter fun g => n ∈ g.2).length > 1

/-! ## Concrete inputs used by the counterexamples and witnesses -/

/-- A concrete instance of the `addSchema` naming oracle: return the schema's
`title` when it carries one, the supplied hint otherwise (mirroring that
`JsonSchemaGen.addSchema` registers component schemas under their own names
and anonymous ones under the hint). -/
def titleOracle (hint : String) (sch : Json) : String :=
  match getKey sch "title" with
  | some (.str t) => t
  | _ => hint

/-- A response carrying an `application/json` schema. -/
def jresp (sch : Json) : Json :=
  .obj [("content", .obj [("application/json", .obj [("schema", sch)])])]

/-- A response with no `content` at all. -/
def noContentResp : Json := .obj [("description", .str "x")]

/-- The C1 counterexample schema: `allOf: [ { type: string } ]`. -/
def allOfStringSchema : Json := .obj [("allOf", .arr [.obj [("type", .str "string")]])]

/-- What the code's own flattening resolves `allOfStringSchema` to. -/
def allOfStringFlattened : Json :=
  .obj [("properties", .obj []), ("required", .arr []), ("type", .str "string")]

/-- A plain explicit-properties object schema. -/
def objectSchemaA : Json :=
  .obj [("type", .str "object"), ("properties", .obj [("a", .obj [])])]

/-- C3 counterexample: an operation whose only JSON success status is `304`. -/
def op304 : OperationInput :=
  { operationId := some "getThing", responses := [("304", jresp objectSchemaA)] }

/-- C2 witness: an operation with a no-content `204` and a no-content `401`. -/
def op204 : OperationInput :=
  { operationId := some "ping",
    responses := [("204", noContentResp), ("401", noContentResp)] }

/-- C4/C5 inputs: `A` (tag `t1`) and `C` (tag `t2`) each depend on `B`;
`A2` re-uses `A` under tag `t2`. -/
def schemaA : Json := .obj [("title", .str "A"), ("type", .str "object")]

def schemaC : Json := .obj [("title", .str "C"), ("type", .str "object")]

def depsAB : String → List String :=
  fun n => if n = "A" then ["B"] else if n = "C" then ["B"] else []

def opA : OperationInput :=
  { operationId := some "getA", tags := some ["t1"], responses := [("200", jresp schemaA)] }

def opC : OperationInput :=
  { operationId := some "getC", tags := some ["t2"], responses := [("200", jresp schemaC)] }

def opA2 : OperationInput :=
  { operationId := some "getA2", tags := some ["t2"], responses := [("200", jresp schemaA)] }

/-- C5 counterexample: a single operation whose (only) tag is literally
`_common`. -/
def opCommonTag : OperationInput :=
  { operationId := some "ping", tags := some ["_common"], responses := [] }

/-- What `parseOperation` computes for `opA` / `opA2` (checked by `rfl` in the
witnesses). -/
def parsedA : ParsedOp :=
  { id := "getA", tags := ["t1"], acc := { successSchemas := [("200", "A")] },
    schemaNames := ["A"] }

def parsedA2 : ParsedOp :=
  { id := "getA2", tags := ["t2"], acc := { successSchemas := [("200", "A")] },
    schemaNames := ["A"] }

/-- The module map the generator produces for the shared-schema spec
`[opA, opA2]` (`A` used by both tags; `A` depends on `B`). -/
def sharedModules : List (String × ModuleOut) :=
  (generateModules 1 3 (.obj []) titleOracle depsAB [opA, opA2]).getD []

/-- The module map for the single-tag spec `[opA]`. -/
def singleTagModules : List (String × ModuleOut) :=
  (generateModules 1 1 (.obj []) titleOracle (fun _ => []) [opA]).getD []

/-! ## Claim-side definitions for the Utils claims -/

/-- The identifier pattern exactly as the claim words it: the literal key `id`,
a key ending in `Id`, a key ending in `_id`, the literal key `uuid`, a key
ending in `Uuid`, or a key ending in `_uuid`, case-sensitively.  (To be compared
with `isIdField`, the embedding of the source's `ID_PATTERN`.) -/
def claimIsIdField (key : String) : Bool :=
  key == "id" || endsWithStr key "Id" || endsWithStr key "_id" ||
    key == "uuid" || endsWithStr key "Uuid" || endsWithStr key "_uuid"

/-- The output alphabet claim C9 asserts: lowercase ASCII letters, digits,
hyphens. -/
def isKebabChar (c : Char) : Bool := isAsciiLower c || isAsciiDigit c || c = '-'

/-- Whether a character list contains two consecutive hyphens. -/
def hasDoubleHyphen : List Char → Bool
  | [] => false
  | c :: rest => (c = '-' && rest.head? = some '-') || hasDoubleHyphen rest

/-- The brand-name derivation exactly as the claim words it: the parent
declaration name followed by the capitalized key for the literal keys
`id`/`uuid`, and the identifier-cased form of the key itself otherwise. -/
def claimBrandNameForId (key : String) (parentName : String) : String :=
  if key == "id" || key == "uuid" then parentName ++ capitalize key
  else identifier key

/-! ## Claim C6 -/

/-- C6 counterexample: the key `userID` matches the source's `ID_PATTERN` (via
its `ID$` alternative), yet it matches none of the six shapes the claim lists —
it is not literally `id`/`uuid` and (case-sensitively) ends in none of `Id`,
`_id`, `Uuid`, `_uuid`.  So the claim's "no other keys are identifier-shaped"
is false on the code. -/
theorem isIdField_claim_counterexample :
    isIdField "userID" = true ∧ claimIsIdField "userID" = false := by
  constructor <;> decide

/-- C6 (amended): a property key is identifier-shaped exactly when it matches
one of the claim's six shapes (literal `id`, `*Id`, `*_id`, literal `uuid`,
`*Uuid`, `*_uuid`) **or additionally ends in `ID`** — the source pattern has a
seventh alternative `ID$` the claim omits. -/
theorem isIdField_amended (key : String) :
    isIdField key = (claimIsIdField key || endsWithStr key "ID") := by
  simp only [isIdField, claimIsIdField]
  cases key == "id" <;> cases endsWithStr key "Id" <;> cases endsWithStr key "_id" <;>
    cases endsWithStr key "ID" <;> cases key == "uuid" <;> cases endsWithStr key "Uuid" <;>
    cases endsWithStr key "_uuid" <;> rfl

/-! ## Claim C7 -/

/-- C7: for every identifier-shaped key, the derived brand name is the parent
declaration name followed by the capitalized key when the key is literally
`id` or `uuid`, and the identifier-cased form of the key itself otherwise;
in particular `userId` and `user_id` both yield `UserId`, and the literal keys
yield `{Parent}Id` / `{Parent}Uuid`. -/
theorem brandNameForId_spec :
    (∀ key parentName, isIdField key = true →
      brandNameForId key parentName = claimBrandNameForId key parentName) ∧
    (∀ parentName, brandNameForId "id" parentName = parentName ++ "Id") ∧
    (∀ parentName, brandNameForId "uuid" parentName = parentName ++ "Uuid") ∧
    brandNameForId "userId" "Pet" = "UserId" ∧
    brandNameForId "user_id" "Pet" = "UserId" := by
  refine ⟨fun key parentName _ => rfl, fun parentName => rfl, fun parentName => rfl, ?_, ?_⟩ <;>
    decide

/-- Witness for `brandNameForId_spec`: its quantified part applied at the
identifier-shaped key `userId` with parent `Pet`. -/
theorem brandNameForId_spec_witness :
    isIdField "userId" = true ∧
      brandNameForId "userId" "Pet" = claimBrandNameForId "userId" "Pet" :=
  ⟨by decide, brandNameForId_spec.1 "userId" "Pet" (by decide)⟩

/-! ## Claim C8 -/

/-- If the replaced text starts with `/`, so did the original: the replacement
block starts with a space, and otherwise the head character is preserved. -/
theorem replaceStarSlash_head_slash (l : List Char)
    (h : (replaceStarSlash l).head? = some '/') : l.head? = some '/' := by
  match l with
  | [] => simp [replaceStarSlash] at h
  | [c] => simpa [replaceStarSlash] using h
  | c :: c2 :: rest =>
    rw [replaceStarSlash] at h
    split at h
    · simp at h
    · simpa using h

/-- Global replacement of `*/` by ` * /` leaves no occurrence of `*/`. -/
theorem contains_replaceStarSlash (l : List Char) :
    containsStarSlash (replaceStarSlash l) = false := by
  induction l using replaceStarSlash.induct with
  | case1 => rfl
  | case2 c => simp [replaceStarSlash, containsStarSlash]
  | case3 c c2 rest h ih =>
    obtain ⟨hc, hc2⟩ := h
    subst hc hc2
    simp [replaceStarSlash, containsStarSlash, ih]
  | case4 c c2 rest h ih =>
    rw [replaceStarSlash, if_neg h]
    rw [containsStarSlash, ih, Bool.or_false, Bool.and_eq_false_iff]
    by_cases hc : c = '*'
    · right
      simp only [decide_eq_false_iff_not]
      intro hhead
      exact h ⟨hc, by simpa using replaceStarSlash_head_slash _ hhead⟩
    · left
      simp [hc]

/-- Inserting `* ` after newlines preserves the head character. -/
theorem starAfterNewline_head (l : List Char) :
    (starAfterNewline l).head? = l.head? := by
  match l with
  | [] => rfl
  | c :: rest =>
    rw [starAfterNewline]
    split <;> simp_all

/-- Inserting `* ` after newlines cannot create an occurrence of `*/`. -/
theorem contains_starAfterNewline (l : List Char)
    (h : containsStarSlash l = false) : containsStarSlash (starAfterNewline l) = false := by
  induction l with
  | nil => rfl
  | cons c rest ih =>
    rw [containsStarSlash, Bool.or_eq_false_iff] at h
    obtain ⟨h1, h2⟩ := h
    rw [starAfterNewline]
    split
    · simp [containsStarSlash, ih h2]
    · rw [containsStarSlash, ih h2, Bool.or_false, Bool.and_eq_false_iff]
      rw [Bool.and_eq_false_iff] at h1
      rcases h1 with h1 | h1
      · exact Or.inl h1
      · refine Or.inr ?_
        rw [starAfterNewline_head]
        exact h1

/-- C8: `toComment` on `none` is the empty string; on `some d` it is exactly the
JSDoc frame `/**\n* ` … `\n*/\n` around the rewritten description
(`*/` globally replaced by ` * /`, then `* ` inserted after every newline), the
result starts with `/**` and ends with `*/` followed by a newline, and the
rewritten interior contains no occurrence of `*/` — so a description can never
terminate the emitted comment early. -/
theorem toComment_spec :
    toComment none = "" ∧
    ∀ d : String,
      (toComment (some d)).data =
        "/**\n* ".data ++ starAfterNewline (replaceStarSlash d.data) ++ "\n*/\n".data ∧
      "/**".data <+: (toComment (some d)).data ∧
      "*/\n".data <:+ (toComment (some d)).data ∧
      containsStarSlash (starAfterNewline (replaceStarSlash d.data)) = false := by
  refine ⟨rfl, fun d => ⟨?_, ?_, ?_, ?_⟩⟩
  · simp [toComment, String.data_append]
  · refine ⟨"\n* ".data ++ starAfterNewline (replaceStarSlash d.data) ++ "\n*/\n".data, ?_⟩
    simp [toComment, String.data_append]
  · refine ⟨"/**\n* ".data ++ starAfterNewline (replaceStarSlash d.data) ++ "\n".data, ?_⟩
    simp [toComment, String.data_append]
  · exact contains_starAfterNewline _ (contains_replaceStarSlash _)

/-! ## Claim C9 -/

theorem isKebabChar_no_upper {c : Char} (h : isKebabChar c = true) : isAsciiUpper c = false := by
  simp only [isKebabChar, isAsciiLower, isAsciiDigit, Bool.or_eq_true, Bool.and_eq_true,
    decide_eq_true_eq] at h
  simp only [isAsciiUpper, Bool.and_eq_false_iff, decide_eq_false_iff_not]
  rcases h with (⟨h1, h2⟩ | ⟨h1, h2⟩) | h
  · right; omega
  · left; omega
  · subst h; left; decide

theorem alnum_ne_hyphen {c : Char} (h : (isAsciiLower c || isAsciiDigit c) = true) :
    c ≠ '-' := by
  intro hc
  subst hc
  exact absurd h (by decide)

theorem isKebabChar_of_alnum {c : Char} (h : (isAsciiLower c || isAsciiDigit c) = true) :
    isKebabChar c = true := by
  simp only [isKebabChar, Bool.or_eq_true] at *
  rcases h with h | h
  · exact Or.inl (Or.inl h)
  · exact Or.inl (Or.inr h)

theorem kebab_cases {c : Char} (h : isKebabChar c = true) :
    (isAsciiLower c || isAsciiDigit c) = true ∨ c = '-' := by
  simp only [isKebabChar, Bool.or_eq_true, decide_eq_true_eq] at h
  rcases h with (h | h) | h
  · exact Or.inl (by simp [h])
  · exact Or.inl (by simp [h])
  · exact Or.inr h

/-! ### Properties of `kebabStep3` (alphabet, no doubles) -/

theorem kebabStep3Go_all (l : List Char) : ∀ b, (kebabStep3Go b l).all isKebabChar = true := by
  induction l with
  | nil => intro b; rfl
  | cons c rest ih =>
    intro b
    rw [kebabStep3Go]
    split
    · rename_i h
      simp only [List.all_cons, Bool.and_eq_true]
      exact ⟨isKebabChar_of_alnum h, ih false⟩
    · split
      · exact ih true
      · simp only [List.all_cons, Bool.and_eq_true]
        exact ⟨by decide, ih true⟩

theorem kebabStep3Go_true_head (l : List Char) :
    (kebabStep3Go true l).head? ≠ some '-' := by
  induction l with
  | nil => simp [kebabStep3Go]
  | cons c rest ih =>
    rw [kebabStep3Go]
    split
    · rename_i h
      simp only [List.head?_cons, ne_eq, Option.some.injEq]
      exact alnum_ne_hyphen h
    · simpa using ih

theorem kebabStep3Go_noDouble (l : List Char) :
    ∀ b, hasDoubleHyphen (kebabStep3Go b l) = false := by
  induction l with
  | nil => intro b; rfl
  | cons c rest ih =>
    intro b
    rw [kebabStep3Go]
    split
    · rename_i h
      rw [hasDoubleHyphen, ih false, Bool.or_false, Bool.and_eq_false_iff]
      left
      simp only [decide_eq_false_iff_not]
      exact alnum_ne_hyphen h
    · split
      · exact ih true
      · rw [hasDoubleHyphen, ih true, Bool.or_false, Bool.and_eq_false_iff]
        right
        simp only [decide_eq_false_iff_not]
        exact kebabStep3Go_true_head rest

/-! ### Properties of `kebabStep4` (alphabet and doubles preserved/removed) -/

theorem kebabStep4Go_all (l : List Char) (h : l.all isKebabChar = true) :
    ∀ b, (kebabStep4Go b l).all isKebabChar = true := by
  induction l with
  | nil => intro b; rfl
  | cons c rest ih =>
    intro b
    rw [List.all_cons, Bool.and_eq_true] at h
    rw [kebabStep4Go]
    split
    · split
      · exact ih h.2 true
      · simp only [List.all_cons, Bool.and_eq_true]
        exact ⟨by decide, ih h.2 true⟩
    · simp only [List.all_cons, Bool.and_eq_true]
      exact ⟨h.1, ih h.2 false⟩

theorem kebabStep4Go_true_head (l : List Char) :
    (kebabStep4Go true l).head? ≠ some '-' := by
  induction l with
  | nil => simp [kebabStep4Go]
  | cons c rest ih =>
    rw [kebabStep4Go]
    split
    · simpa using ih
    · rename_i h
      simpa using h

theorem kebabStep4Go_noDouble (l : List Char) :
    ∀ b, hasDoubleHyphen (kebabStep4Go b l) = false := by
  induction l with
  | nil => intro b; rfl
  | cons c rest ih =>
    intro b
    rw [kebabStep4Go]
    split
    · split
      · exact ih true
      · rw [hasDoubleHyphen, ih true, Bool.or_false, Bool.and_eq_false_iff]
        right
        simp only [decide_eq_false_iff_not]
        exact kebabStep4Go_true_head rest
    · rename_i h
      rw [hasDoubleHyphen, ih false, Bool.or_false, Bool.and_eq_false_iff]
      left
      simpa using h

theorem kebabStep4Go_true_eq_false (l : List Char) (h : l.head? ≠ some '-') :
    kebabStep4Go true l = kebabStep4Go false l := by
  cases l with
  | nil => rfl
  | cons c rest =>
    have hc : ¬ c = '-' := by simpa using h
    rw [kebabStep4Go, kebabStep4Go, if_neg hc, if_neg hc]

theorem kebabStep4_id (l : List Char) (h : hasDoubleHyphen l = false) :
    kebabStep4Go false l = l := by
  induction l with
  | nil => rfl
  | cons c rest ih =>
    rw [hasDoubleHyphen, Bool.or_eq_false_iff, Bool.and_eq_false_iff] at h
    rw [kebabStep4Go]
    split
    · rename_i hc
      rcases h.1 with h1 | h1
      · exact absurd hc (by simpa using h1)
      · rw [kebabStep4Go_true_eq_false rest (by simpa using h1), ih h.2]
        subst hc
        simp
    · rw [ih h.2]

/-! ### Properties of `kebabStep5` (trimming) -/

theorem head?_dropLast (x : List Char) : x.dropLast.head? = x.head? ∨ x.dropLast = [] := by
  match x with
  | [] => exact Or.inr rfl
  | [a] => exact Or.inr rfl
  | a :: b :: r => exact Or.inl (by simp [List.dropLast])

theorem hasDoubleHyphen_tail (l : List Char) (h : hasDoubleHyphen l = false) :
    hasDoubleHyphen l.tail = false := by
  cases l with
  | nil => rfl
  | cons c rest =>
    rw [hasDoubleHyphen, Bool.or_eq_false_iff] at h
    exact h.2

theorem hasDoubleHyphen_dropLast (l : List Char) (h : hasDoubleHyphen l = false) :
    hasDoubleHyphen l.dropLast = false := by
  induction l with
  | nil => rfl
  | cons a rest ih =>
    cases rest with
    | nil => rfl
    | cons b r =>
      rw [hasDoubleHyphen, Bool.or_eq_false_iff] at h
      rw [List.dropLast_cons₂, hasDoubleHyphen, ih h.2, Bool.or_false,
        Bool.and_eq_false_iff]
      rcases head?_dropLast (b :: r) with hh | hh
      · rw [hh]
        have := h.1
        rw [Bool.and_eq_false_iff] at this
        rcases this with h1 | h1
        · exact Or.inl h1
        · exact Or.inr h1
      · rw [hh]
        right; decide

theorem getLast?_dropLast_ne (x : List Char) (h : hasDoubleHyphen x = false)
    (hx : x.getLast? = some '-') : x.dropLast.getLast? ≠ some '-' := by
  induction x with
  | nil => simp at hx
  | cons a rest ih =>
    cases rest with
    | nil =>
      simp [List.dropLast]
    | cons b r =>
      rw [hasDoubleHyphen, Bool.or_eq_false_iff] at h
      rw [List.getLast?_cons_cons] at hx
      rw [List.dropLast_cons₂]
      cases r with
      | nil =>
        have hb : b = '-' := by simpa using hx
        subst hb
        have := h.1
        rw [Bool.and_eq_false_iff] at this
        simp only [List.dropLast_single, List.getLast?_singleton, ne_eq, Option.some.injEq]
        rcases this with h1 | h1
        · simpa using h1
        · simp at h1
      | cons d r2 =>
        have e3 : ∀ w : List Char, (a :: b :: w).getLast? = (b :: w).getLast? :=
          fun w => List.getLast?_cons_cons
        have e2 : (b :: d :: r2).dropLast = b :: (d :: r2).dropLast := rfl
        rw [e2, e3, ← e2]
        exact ih h.2 hx

theorem all_tail {l : List Char} (h : l.all isKebabChar = true) :
    l.tail.all isKebabChar = true := by
  cases l with
  | nil => rfl
  | cons c rest => rw [List.all_cons, Bool.and_eq_true] at h; exact h.2

theorem all_dropLast {l : List Char} (h : l.all isKebabChar = true) :
    l.dropLast.all isKebabChar = true := by
  rw [List.all_eq_true] at h ⊢
  exact fun c hc => h c (List.dropLast_sublist l |>.subset hc)

theorem kebabStep5_all (l : List Char) (h : l.all isKebabChar = true) :
    (kebabStep5 l).all isKebabChar = true := by
  rw [kebabStep5]
  split <;> split
  · exact all_dropLast (all_tail h)
  · exact all_tail h
  · exact all_dropLast h
  · exact h

theorem kebabStep5_eq (l : List Char) :
    kebabStep5 l =
      (if (if l.head? = some '-' then l.tail else l).getLast? = some '-'
        then (if l.head? = some '-' then l.tail else l).dropLast
        else (if l.head? = some '-' then l.tail else l)) := rfl

theorem kebabStep5_trim1_head (l : List Char) (h : hasDoubleHyphen l = false) :
    (if l.head? = some '-' then l.tail else l).head? ≠ some '-' := by
  by_cases hh : l.head? = some '-'
  · rw [if_pos hh]
    cases l with
    | nil => simp at hh
    | cons c rest =>
      rw [hasDoubleHyphen, Bool.or_eq_false_iff, Bool.and_eq_false_iff] at h
      have hc : c = '-' := by simpa using hh
      rcases h.1 with h1 | h1
      · exact absurd hc (by simpa using h1)
      · simpa using h1
  · rw [if_neg hh]
    exact hh

theorem kebabStep5_trim1_noDouble (l : List Char) (h : hasDoubleHyphen l = false) :
    hasDoubleHyphen (if l.head? = some '-' then l.tail else l) = false := by
  by_cases hh : l.head? = some '-'
  · rw [if_pos hh]
    exact hasDoubleHyphen_tail l h
  · rw [if_neg hh]
    exact h

theorem kebabStep5_head (l : List Char) (h : hasDoubleHyphen l = false) :
    (kebabStep5 l).head? ≠ some '-' := by
  rw [kebabStep5_eq]
  have hx := kebabStep5_trim1_head l h
  generalize (if l.head? = some '-' then l.tail else l) = t at hx ⊢
  split
  · rcases head?_dropLast t with hh | hh
    · rw [hh]; exact hx
    · rw [hh]; simp
  · exact hx

theorem kebabStep5_last (l : List Char) (h : hasDoubleHyphen l = false) :
    (kebabStep5 l).getLast? ≠ some '-' := by
  rw [kebabStep5_eq]
  have h1 := kebabStep5_trim1_noDouble l h
  generalize (if l.head? = some '-' then l.tail else l) = t at h1 ⊢
  split
  · rename_i hlast
    exact getLast?_dropLast_ne _ h1 hlast
  · rename_i hlast
    exact hlast

theorem kebabStep5_noDouble (l : List Char) (h : hasDoubleHyphen l = false) :
    hasDoubleHyphen (kebabStep5 l) = false := by
  rw [kebabStep5_eq]
  have h1 := kebabStep5_trim1_noDouble l h
  generalize (if l.head? = some '-' then l.tail else l) = t at h1 ⊢
  split
  · exact hasDoubleHyphen_dropLast _ h1
  · exact h1

theorem kebabStep5_id (l : List Char) (hh : l.head? ≠ some '-')
    (hl : l.getLast? ≠ some '-') : kebabStep5 l = l := by
  rw [kebabStep5]
  simp only [if_neg hh, if_neg hl]

/-! ### Identity of the earlier steps on already-normalized input -/

theorem kebabStep1_id : ∀ l : List Char, l.all isKebabChar = true → kebabStep1 l = l
  | [], _ => rfl
  | [c], _ => rfl
  | c1 :: c2 :: rest, h => by
    rw [List.all_cons, Bool.and_eq_true, List.all_cons, Bool.and_eq_true] at h
    have e : kebabStep1 (c1 :: c2 :: rest) =
        if (isAsciiLower c1 || isAsciiDigit c1) && isAsciiUpper c2 then
          c1 :: '-' :: c2 :: kebabStep1 rest
        else c1 :: kebabStep1 (c2 :: rest) := rfl
    rw [e, if_neg, kebabStep1_id (c2 :: rest)
      (by rw [List.all_cons, Bool.and_eq_true]; exact ⟨h.2.1, h.2.2⟩)]
    rw [Bool.not_eq_true, Bool.and_eq_false_iff]
    right
    exact isKebabChar_no_upper h.2.1

theorem kebabStep2Go_nil_id : ∀ l : List Char, l.all isKebabChar = true →
    kebabStep2Go [] l = l
  | [], _ => rfl
  | c :: rest, h => by
    rw [List.all_cons, Bool.and_eq_true] at h
    have e : kebabStep2Go [] (c :: rest) =
        if isAsciiUpper c then kebabStep2Go [c] rest
        else if isAsciiLower c then c :: kebabStep2Go [] rest
        else c :: kebabStep2Go [] rest := rfl
    rw [e, if_neg (by simp [isKebabChar_no_upper h.1])]
    have ih := kebabStep2Go_nil_id rest h.2
    split <;> rw [ih]

theorem Char_toLower_fixed {c : Char} (h : isKebabChar c = true) : Char.toLower c = c := by
  have : ¬ (c.toNat ≥ 65 ∧ c.toNat ≤ 90) := by
    simp only [isKebabChar, isAsciiLower, isAsciiDigit, Bool.or_eq_true, Bool.and_eq_true,
      decide_eq_true_eq] at h
    rcases h with (⟨h1, h2⟩ | ⟨h1, h2⟩) | h
    · omega
    · omega
    · subst h; decide
  simp only [Char.toLower, if_neg this]

theorem toLowerChars_id (l : List Char) (h : l.all isKebabChar = true) :
    toLowerChars l = l := by
  induction l with
  | nil => rfl
  | cons c rest ih =>
    rw [List.all_cons, Bool.and_eq_true] at h
    simp only [toLowerChars, List.map_cons]
    rw [Char_toLower_fixed h.1]
    exact congrArg (c :: ·) (ih h.2)

theorem kebabStep3Go_true_eq_false (l : List Char) (hall : l.all isKebabChar = true)
    (h : l.head? ≠ some '-') : kebabStep3Go true l = kebabStep3Go false l := by
  cases l with
  | nil => rfl
  | cons c rest =>
    rw [List.all_cons, Bool.and_eq_true] at hall
    have : (isAsciiLower c || isAsciiDigit c) = true := by
      rcases kebab_cases hall.1 with hc | hc
      · exact hc
      · exact absurd hc (by simpa using h)
    rw [kebabStep3Go, kebabStep3Go, if_pos this, if_pos this]

theorem kebabStep3_id (l : List Char) (hall : l.all isKebabChar = true)
    (hnd : hasDoubleHyphen l = false) : kebabStep3Go false l = l := by
  induction l with
  | nil => rfl
  | cons c rest ih =>
    rw [List.all_cons, Bool.and_eq_true] at hall
    rw [hasDoubleHyphen, Bool.or_eq_false_iff, Bool.and_eq_false_iff] at hnd
    rw [kebabStep3Go]
    split
    · exact congrArg (c :: ·) (ih hall.2 hnd.2)
    · rename_i hc
      rcases kebab_cases hall.1 with h | h
      · exact absurd h hc
      · subst h
        have hhead : rest.head? ≠ some '-' := by
          rcases hnd.1 with h1 | h1
          · simp at h1
          · simpa using h1
        rw [kebabStep3Go_true_eq_false rest hall.2 hhead, ih hall.2 hnd.2]
        simp

/-! ### The pipeline properties and the claim theorem -/

theorem kebabPipeline_all (l : List Char) : (kebabPipeline l).all isKebabChar = true :=
  kebabStep5_all _ (kebabStep4Go_all _ (kebabStep3Go_all _ false) false)

theorem kebabPipeline_head (l : List Char) : (kebabPipeline l).head? ≠ some '-' :=
  kebabStep5_head _ (kebabStep4Go_noDouble _ false)

theorem kebabPipeline_last (l : List Char) : (kebabPipeline l).getLast? ≠ some '-' :=
  kebabStep5_last _ (kebabStep4Go_noDouble _ false)

theorem kebabPipeline_noDouble (l : List Char) :
    hasDoubleHyphen (kebabPipeline l) = false :=
  kebabStep5_noDouble _ (kebabStep4Go_noDouble _ false)

theorem kebabPipeline_id (l : List Char) (h1 : l.all isKebabChar = true)
    (h2 : hasDoubleHyphen l = false) (h3 : l.head? ≠ some '-')
    (h4 : l.getLast? ≠ some '-') : kebabPipeline l = l := by
  rw [kebabPipeline, kebabStep1_id l h1, kebabStep2, kebabStep2Go_nil_id l h1,
    toLowerChars_id l h1, kebabStep3, kebabStep3_id l h1 h2, kebabStep4,
    kebabStep4_id l h2, kebabStep5_id l h3 h4]

/-- C9: every `toKebabCase` output consists only of lowercase ASCII letters,
digits, and hyphens, has no leading hyphen, no trailing hyphen, and no two
consecutive hyphens; consequently `toKebabCase` is idempotent. -/
theorem toKebabCase_spec (s : String) :
    (toKebabCase s).data.all isKebabChar = true ∧
    ((toKebabCase s).data.head? == some '-') = false ∧
    ((toKebabCase s).data.getLast? == some '-') = false ∧
    hasDoubleHyphen (toKebabCase s).data = false ∧
    toKebabCase (toKebabCase s) = toKebabCase s := by
  have props : ∀ t : String, t = toKebabCase s →
      t.data.all isKebabChar = true ∧ t.data.head? ≠ some '-' ∧
      t.data.getLast? ≠ some '-' ∧ hasDoubleHyphen t.data = false := by
    intro t ht
    rw [ht, toKebabCase]
    split
    · exact ⟨rfl, by simp, by simp, rfl⟩
    · exact ⟨kebabPipeline_all _, kebabPipeline_head _, kebabPipeline_last _,
        kebabPipeline_noDouble _⟩
  obtain ⟨p1, p2, p3, p4⟩ := props _ rfl
  refine ⟨p1, by simpa using p2, by simpa using p3, p4, ?_⟩
  have e : toKebabCase (toKebabCase s) =
      if (toKebabCase s).length == 0 then ""
      else ⟨kebabPipeline (toKebabCase s).data⟩ := rfl
  rw [e]
  split
  · rename_i hlen
    rw [beq_iff_eq] at hlen
    have hdata : (toKebabCase s).data = [] := List.length_eq_zero.mp hlen
    exact String.ext (by rw [hdata])
  · exact String.ext (kebabPipeline_id _ p1 p4 p2 p3)

/-! ## Association-list lemmas (JS `Map`/object semantics) -/

theorem lookup_append_some {β : Type} {m : List (String × β)} {k : String} {v : β}
    (h : m.lookup k = some v) (l2 : List (String × β)) : (m ++ l2).lookup k = some v := by
  induction m with
  | nil => simp at h
  | cons kv t ih =>
    obtain ⟨k1, v1⟩ := kv
    rw [List.lookup_cons] at h
    rw [List.cons_append, List.lookup_cons]
    cases hk : k == k1 with
    | true => rw [hk] at h; simpa using h
    | false => rw [hk] at h; exact ih h

theorem lookup_append_none {β : Type} {m : List (String × β)} {k : String}
    (h : m.lookup k = none) (l2 : List (String × β)) :
    (m ++ l2).lookup k = l2.lookup k := by
  induction m with
  | nil => simp
  | cons kv t ih =>
    obtain ⟨k1, v1⟩ := kv
    rw [List.lookup_cons] at h
    rw [List.cons_append, List.lookup_cons]
    cases hk : k == k1 with
    | true => rw [hk] at h; simp at h
    | false => rw [hk] at h; exact ih h

theorem lookup_map_overwrite {β : Type} (m : List (String × β)) (k : String) (v : β)
    (h : (m.lookup k).isSome = true) :
    ((m.map fun kv => if kv.1 == k then (k, v) else kv).lookup k) = some v := by
  induction m with
  | nil => simp at h
  | cons kv t ih =>
    obtain ⟨k1, v1⟩ := kv
    simp only [List.map_cons]
    cases hk : (k1 : String) == k with
    | true =>
      rw [if_pos (by simp [hk])]
      simp [List.lookup_cons]
    | false =>
      rw [if_neg (by simp [hk])]
      have hk' : (k == k1) = false := by
        simp only [beq_eq_false_iff_ne] at hk ⊢
        exact fun e => hk e.symm
      simp only [List.lookup_cons, hk'] at h ⊢
      exact ih h

theorem lookup_map_set_ne {β : Type} (t : List (String × β)) (k k' : String) (v : β)
    (h : ¬ k' = k) :
    (t.map fun kv => if kv.1 == k then (k, v) else kv).lookup k' = t.lookup k' := by
  induction t with
  | nil => rfl
  | cons kv rest ih =>
    obtain ⟨k1, v1⟩ := kv
    simp only [List.map_cons]
    cases hk : (k1 : String) == k with
    | true =>
      rw [if_pos (by simp [hk])]
      have e1 : (k1 : String) = k := by simpa using hk
      have hne' : (k' == k) = false := by simpa using h
      subst e1
      simp only [List.lookup_cons, hne']
      exact ih
    | false =>
      rw [if_neg (by simp [hk])]
      simp only [List.lookup_cons]
      cases hk2 : k' == k1 with
      | true => rfl
      | false => exact ih

theorem lookup_setAssoc_self {β : Type} (m : List (String × β)) (k : String) (v : β) :
    (setAssoc m k v).lookup k = some v := by
  unfold setAssoc
  split
  · rename_i h
    exact lookup_map_overwrite m k v h
  · rename_i h
    have hnone : m.lookup k = none := by
      cases hm : m.lookup k with
      | none => rfl
      | some w => rw [hm] at h; simp at h
    rw [lookup_append_none hnone]
    simp [List.lookup_cons]

theorem lookup_setAssoc_ne {β : Type} (m : List (String × β)) {k k' : String} (v : β)
    (h : ¬ k' = k) : (setAssoc m k v).lookup k' = m.lookup k' := by
  unfold setAssoc
  split
  · exact lookup_map_set_ne m k k' v h
  · cases hm : m.lookup k' with
    | none =>
      rw [lookup_append_none hm]
      have : (k' == k) = false := by simpa using h
      simp [List.lookup_cons, this]
    | some w => exact lookup_append_some hm _

theorem lookup_setAssoc_isSome {β : Type} (m : List (String × β)) (k : String) (v : β) :
    ((setAssoc m k v).lookup k).isSome = true := by
  rw [lookup_setAssoc_self]
  rfl

theorem lookup_foldl_setAssoc {β γ : Type} (k : String) (l : List γ) (key : γ → String)
    (F : γ → β) (init : List (String × β)) (h : ∀ g ∈ l, ¬ key g = k) :
    (l.foldl (fun ms g => setAssoc ms (key g) (F g)) init).lookup k = init.lookup k := by
  induction l generalizing init with
  | nil => rfl
  | cons g t ih =>
    simp only [List.foldl_cons]
    rw [ih _ fun g' hg' => h g' (List.mem_cons_of_mem _ hg')]
    exact lookup_setAssoc_ne _ _ fun e => h g (List.mem_cons_self _ _) e.symm

/-! ## `addSet` membership lemmas -/

theorem mem_addSet {s : List String} {x y : String} : y ∈ addSet s x ↔ y ∈ s ∨ y = x := by
  unfold addSet
  split
  · rename_i hx
    constructor
    · exact Or.inl
    · rintro (h | rfl)
      · exact h
      · exact hx
  · simp [List.mem_append]

theorem mem_foldl_addSet (l : List String) (acc : List String) (x : String) :
    x ∈ l.foldl addSet acc ↔ x ∈ acc ∨ x ∈ l := by
  induction l generalizing acc with
  | nil => simp
  | cons a t ih =>
    simp only [List.foldl_cons, ih, mem_addSet, List.mem_cons]
    tauto

/-! ## Claim C10 -/

/-- C10 counterexample: an operation that declares the (empty-string)
`operationId` `""` gets the method+path fallback id `GET/health`, not
`camelize("") = ""` — JS truthiness treats the declared empty id as absent. -/
theorem operationId_claim_counterexample :
    operationIdOf { operationId := some "", method := "get", path := "/health" } =
        "GET/health" ∧
      camelize "" = "" ∧ ("GET/health" : String) ≠ "" := by
  refine ⟨rfl, rfl, ?_⟩
  decide

/-- C10 (amended): the parsed operation id — and hence the generated client
method key `"<id>"` — equals `camelize(operationId)` when the operation
declares a **non-empty** `operationId`, and equals the uppercased HTTP method
name concatenated with the literal path otherwise (absent *or empty*
`operationId`). -/
theorem operationId_amended :
    (∀ (o : OperationInput) (s : String), o.operationId = some s → ¬ s = "" →
      operationIdOf o = camelize s) ∧
    (∀ o : OperationInput, o.operationId = none ∨ o.operationId = some "" →
      operationIdOf o = jsToUpper o.method ++ o.path) ∧
    (∀ (fuel : Nat) (spec : Json) (addSchema : String → Json → String)
      (o : OperationInput) (p : ParsedOp),
      parseOperation fuel spec addSchema o = some p → p.id = operationIdOf o) := by
  refine ⟨?_, ?_, ?_⟩
  · intro o s hs hne
    simp only [operationIdOf, hs]
    rw [if_neg (by simpa using hne)]
  · rintro o (h | h) <;> simp [operationIdOf, h]
  · intro fuel spec addSchema o p hp
    simp only [parseOperation] at hp
    cases hfold : o.responses.foldlM
        (processResponse fuel spec addSchema (identifier (o.operationId.getD o.path))) {} with
    | none => rw [hfold] at hp; cases hp
    | some acc0 =>
      rw [hfold] at hp
      cases hp
      rfl

/-- Witness for `operationId_amended` at the concrete operation `get_user`. -/
theorem operationId_amended_witness :
    operationIdOf { operationId := some "get_user", method := "get", path := "/u" } =
      camelize "get_user" :=
  operationId_amended.1 { operationId := some "get_user", method := "get", path := "/u" }
    "get_user" rfl (by decide)

/-! ## Claim C2 -/

/-- A falsy `response.content` yields neither a JSON schema nor an
event-stream schema. -/
theorem content_falsy_chains (r : Json) (h : contentTruthy r = false) :
    jsonSchemaOf r = none ∧ eventStreamSchemaOf r = none := by
  unfold contentTruthy at h
  unfold jsonSchemaOf eventStreamSchemaOf
  cases hc : getKey r "content" with
  | none => simp [hc]
  | some v =>
    rw [hc] at h
    cases v with
    | null => simp [hc, getKey]
    | bool b => simp [hc, getKey]
    | num n => simp [hc, getKey]
    | str s => simp [hc, getKey]
    | arr l => simp [jsTruthy] at h
    | obj fs => simp [jsTruthy] at h

/-- A no-content response's processing is exactly the void check. -/
theorem processResponse_noContent (fuel : Nat) (spec : Json)
    (addSchema : String → Json → String) (schemaId status : String) (raw resp : Json)
    (acc : OpAcc) (hres : resolveResponse spec fuel raw = some resp)
    (hcont : contentTruthy resp = false) :
    processResponse fuel spec addSchema schemaId acc (status, raw) =
      some (processVoid status acc resp) := by
  obtain ⟨hjson, hstream⟩ := content_falsy_chains resp hcont
  simp only [processResponse, hres, processJsonContent, hjson, Bool.false_eq_true,
    if_false, processStream]
  cases hs : acc.streamSchema with
  | some s => rfl
  | none => rw [hstream]

/-- C2: a response status with no `content` at all is classified by its first
digit — below 4 it is recorded as Void (its own processing step only adds the
lowercased status to `voidSchemas`, and the emitted decode table then contains
the empty-success arm `"<status>": () => Effect.void`); at 4 or above it is
Ignored (the processing step records nothing at all — in particular no typed
error entry), and every emitted decode table ends with the
`orElse: unexpectedStatus` fall-through, which fails with a generic
unexpected-status error carrying the response body text. -/
theorem noContent_status_spec :
    (∀ (fuel : Nat) (spec : Json) (addSchema : String → Json → String)
        (schemaId status : String) (raw resp : Json) (acc : OpAcc) (d : Nat),
      resolveResponse spec fuel raw = some resp →
      contentTruthy resp = false →
      firstCharNumber status = some d → d < 4 →
      processResponse fuel spec addSchema schemaId acc (status, raw) =
        some { acc with voidSchemas := addSet acc.voidSchemas (jsToLower status) }) ∧
    (∀ (fuel : Nat) (spec : Json) (addSchema : String → Json → String)
        (schemaId status : String) (raw resp : Json) (acc : OpAcc) (d : Nat),
      resolveResponse spec fuel raw = some resp →
      contentTruthy resp = false →
      firstCharNumber status = some d → 4 ≤ d →
      processResponse fuel spec addSchema schemaId acc (status, raw) = some acc) ∧
    (∀ (acc : OpAcc) (st : String), st ∈ acc.voidSchemas →
      ("\x22" ++ st ++ "\x22: () => Effect.void") ∈ decodeLines acc) ∧
    (∀ acc : OpAcc, (decodeLines acc).getLast? = some "orElse: unexpectedStatus") := by
  refine ⟨?_, ?_, ?_, ?_⟩
  · intro fuel spec addSchema schemaId status raw resp acc d hres hcont hd hd4
    rw [processResponse_noContent fuel spec addSchema schemaId status raw resp acc hres hcont]
    simp only [processVoid, hcont, Bool.false_eq_true, if_false, hd]
    rw [if_pos hd4]
  · intro fuel spec addSchema schemaId status raw resp acc d hres hcont hd hd4
    rw [processResponse_noContent fuel spec addSchema schemaId status raw resp acc hres hcont]
    simp only [processVoid, hcont, Bool.false_eq_true, if_false, hd]
    rw [if_neg (by omega)]
  · intro acc st hst
    simp only [decodeLines, List.mem_append, List.mem_map]
    exact Or.inl (Or.inr ⟨st, hst, rfl⟩)
  · intro acc
    simp only [decodeLines]
    rw [show ∀ a b c : List String,
        a ++ b ++ c ++ ["orElse: unexpectedStatus"] =
          (a ++ b ++ c) ++ ["orElse: unexpectedStatus"] from fun a b c => by
      simp [List.append_assoc]]
    exact List.getLast?_concat _

/-- Witness for `noContent_status_spec`: the no-content statuses `204` and
`401` of `op204`. -/
theorem noContent_status_spec_witness :
    processResponse 1 (.obj []) titleOracle "Ping" {} ("204", noContentResp) =
        some { ({} : OpAcc) with
          voidSchemas := addSet ({} : OpAcc).voidSchemas (jsToLower "204") } ∧
      processResponse 1 (.obj []) titleOracle "Ping" {} ("401", noContentResp) =
        some {} :=
  ⟨noContent_status_spec.1 1 (.obj []) titleOracle "Ping" "204" noContentResp noContentResp
      {} 2 rfl rfl rfl (by decide),
    noContent_status_spec.2.1 1 (.obj []) titleOracle "Ping" "401" noContentResp
      noContentResp {} 4 rfl rfl rfl (by decide)⟩

/-! ## Claim C3 -/

/-- C3 counterexample: an operation whose only JSON success status is `304`
(a JSON success below 400, but outside the 2xx range) keeps its literal status
key — the emitted status-match key list is `["304"]`, not the `"2xx"` bucket
the claim predicts for every lone success status. -/
theorem successKey_claim_counterexample :
    (parseOperation 1 (.obj []) titleOracle op304).map (fun p => p.acc.successSchemas) =
        some [("304", "GetThing304")] ∧
      (parseOperation 1 (.obj []) titleOracle op304).map (fun p => decodeKeys p.acc) =
        some ["304"] ∧
      (parseOperation 1 (.obj []) titleOracle op304).map
          (fun p => (decodeKeys p.acc).contains "2xx") = some false :=
  ⟨rfl, rfl, rfl⟩

/-- C3 (amended): the lone JSON success status is emitted under the generic
`"2xx"` bucket only when it starts with the character `2` (which covers the
synthetic `default` fallback, stored under `"2xx"`); a lone success status
outside the 2xx range (e.g. `304`) keeps its literal key, and when several
JSON success statuses exist each keeps its literal key. -/
theorem successKey_amended :
    (∀ (acc : OpAcc) (st sch : String), acc.successSchemas = [(st, sch)] →
      startsWith2 st = true →
      decodeKeys acc = "2xx" :: (acc.errorSchemas.map Prod.fst ++ acc.voidSchemas)) ∧
    (∀ (acc : OpAcc) (st sch : String), acc.successSchemas = [(st, sch)] →
      startsWith2 st = false →
      decodeKeys acc = st :: (acc.errorSchemas.map Prod.fst ++ acc.voidSchemas)) ∧
    (∀ acc : OpAcc, 2 ≤ acc.successSchemas.length →
      decodeKeys acc = acc.successSchemas.map Prod.fst ++
        (acc.errorSchemas.map Prod.fst ++ acc.voidSchemas)) ∧
    (∀ (acc : OpAcc) (d : String), acc.successSchemas = [] →
      acc.defaultSchema = some d → ¬ d = "" →
      (applyDefaultFallback acc).successSchemas = [("2xx", d)]) := by
  refine ⟨?_, ?_, ?_, ?_⟩
  · intro acc st sch hs h2
    simp [decodeKeys, hs, h2]
  · intro acc st sch hs h2
    simp [decodeKeys, hs, h2]
  · intro acc hlen
    have hne : (acc.successSchemas.length == 1) = false := by
      simp only [beq_eq_false_iff_ne]
      omega
    simp only [decodeKeys, hne, Bool.false_and, Bool.false_eq_true, if_false,
      List.append_assoc]
  · intro acc d hs hd hne
    simp only [applyDefaultFallback, hd, hs, List.isEmpty_nil, Bool.true_and]
    rw [if_pos (by simpa using hne)]
    simp [hs, setAssoc]

/-! ## Claim C1 -/

theorem lookup_append_isSome_left {β : Type} {m : List (String × β)} {k : String}
    (h : (m.lookup k).isSome = true) (l2 : List (String × β)) :
    ((m ++ l2).lookup k).isSome = true := by
  cases hm : m.lookup k with
  | none => rw [hm] at h; simp at h
  | some v => rw [lookup_append_some hm]; rfl

theorem lookup_isSome_map_keyPreserving {β : Type} (f : (String × β) → (String × β))
    (hf : ∀ kv, (f kv).1 = kv.1) (l : List (String × β)) (k : String) :
    ((l.map f).lookup k).isSome = (l.lookup k).isSome := by
  induction l with
  | nil => rfl
  | cons kv t ih =>
    obtain ⟨k1, v1⟩ := kv
    simp only [List.map_cons]
    cases hfk : f (k1, v1) with
    | mk a b =>
      have ha : a = k1 := by
        have := hf (k1, v1)
        rw [hfk] at this
        exact this
      subst ha
      simp only [List.lookup_cons]
      cases hk : k == a with
      | true => rfl
      | false => exact ih

theorem hasKey_assign_left (tf : List (String × Json)) (s : Json) (k : String)
    (h : (tf.lookup k).isSome = true) : hasKey (assign (.obj tf) s) k = true := by
  cases s with
  | obj sf =>
    show ((assignFields tf sf).lookup k).isSome = true
    unfold assignFields
    apply lookup_append_isSome_left
    rw [lookup_isSome_map_keyPreserving
      (fun kv => match sf.lookup kv.1 with | some v => (kv.1, v) | none => kv)
      (fun kv => by cases hl : sf.lookup kv.1 <;> simp [hl]) tf k]
    exact h
  | null => exact h
  | bool b => exact h
  | num n => exact h
  | str s1 => exact h
  | arr l => exact h

theorem assign_obj (tf : List (String × Json)) (s : Json) :
    ∃ fs', assign (.obj tf) s = .obj fs' := by
  cases s <;> exact ⟨_, rfl⟩

theorem hasKey_setKeyJ_self (fs : List (String × Json)) (k : String) (v : Json) :
    hasKey (setKeyJ (.obj fs) k v) k = true := by
  show ((setAssoc fs k v).lookup k).isSome = true
  rw [lookup_setAssoc_self]
  rfl

theorem hasKey_setKeyJ_other (fs : List (String × Json)) (k k' : String) (v : Json)
    (h : ¬ k' = k) (hk : (fs.lookup k').isSome = true) :
    hasKey (setKeyJ (.obj fs) k v) k' = true := by
  show ((setAssoc fs k v).lookup k').isSome = true
  rw [lookup_setAssoc_ne _ _ h]
  exact hk

/-- One `allOf` merge step keeps the accumulator an object carrying a
`properties` key. -/
theorem mergeAllOfStep_props (spec merged member m' : Json)
    (fs : List (String × Json)) (hm : merged = .obj fs)
    (hp : hasKey merged "properties" = true)
    (h : mergeAllOfStep spec merged member = some m') :
    ∃ fs', m' = .obj fs' ∧ hasKey m' "properties" = true := by
  subst hm
  unfold mergeAllOfStep at h
  cases hr : refResolveOnce spec member with
  | none => rw [hr] at h; cases h
  | some resolved =>
    rw [hr] at h
    injection h with h2
    obtain ⟨f1, hf1⟩ := assign_obj fs resolved
    rw [hf1] at h2
    obtain ⟨f2, hf2⟩ : ∃ f2, setKeyJ (Json.obj f1) "properties"
        (assign (getNullish (Json.obj f1) "properties" (Json.obj []))
          (getNullish resolved "properties" (Json.obj []))) = Json.obj f2 := ⟨_, rfl⟩
    rw [hf2] at h2
    have hp2 : (f2.lookup "properties").isSome = true := by
      have := hasKey_setKeyJ_self f1 "properties"
        (assign (getNullish (Json.obj f1) "properties" (Json.obj []))
          (getNullish resolved "properties" (Json.obj [])))
      rw [hf2] at this
      exact this
    subst h2
    exact ⟨_, rfl, hasKey_setKeyJ_other f2 "required" "properties" _ (by decide) hp2⟩

/-- The whole `allOf` fold keeps the `properties` key installed by the
accumulator `{ properties: {}, required: [] }`. -/
theorem foldlM_mergeAllOf_props (spec : Json) (members : List Json) :
    ∀ (merged : Json) (fs : List (String × Json)), merged = .obj fs →
      hasKey merged "properties" = true →
      ∀ r, members.foldlM (mergeAllOfStep spec) merged = some r →
        hasKey r "properties" = true := by
  induction members with
  | nil =>
    intro merged fs hm hp r h
    simp only [List.foldlM_nil] at h
    cases h
    exact hp
  | cons m t ih =>
    intro merged fs hm hp r h
    rw [List.foldlM_cons] at h
    cases hstep : mergeAllOfStep spec merged m with
    | none => rw [hstep] at h; cases h
    | some m1 =>
      rw [hstep] at h
      obtain ⟨fs1, hobj, hprops⟩ := mergeAllOfStep_props spec merged m m1 fs hm hp hstep
      exact ih m1 fs1 hobj hprops r (by simpa using h)

theorem resolveErrorSchema_no_allOf (spec e e' : Json)
    (href : refResolveOnce spec e = some e')
    (hnall : ∀ members, ¬ getKey e' "allOf" = some (.arr members)) :
    resolveErrorSchema spec e = some e' := by
  unfold resolveErrorSchema
  rw [href]
  cases hall : getKey e' "allOf" with
  | none => simp only [hall]
  | some v =>
    cases v with
    | arr ms => exact absurd hall (hnall ms)
    | null => simp only [hall]
    | bool b => simp only [hall]
    | num n => simp only [hall]
    | str s1 => simp only [hall]
    | obj fs => simp only [hall]

/-- C1 counterexample: the 400-range error schema `allOf: [ { type: "string" } ]`
resolves — by the code's own flattening — to a string-typed fragment that is
not an object with explicit properties, yet the code classifies it
ErrorTagged (`some true`): the allOf accumulator always installs a
`properties` key.  Per the claim it should be ErrorPlain. -/
theorem errorClassification_claim_counterexample :
    classifyObjectError (.obj []) allOfStringSchema = some true ∧
      resolveErrorSchema (.obj []) allOfStringSchema = some allOfStringFlattened ∧
      claimIsObjectWithProps allOfStringFlattened = false :=
  ⟨rfl, rfl, rfl⟩

/-- C1 (amended): a ≥400 `application/json` response schema is classified
ErrorTagged exactly when the resolved schema carries a `properties` key —
(1) every resolved schema that *is* an object with explicit properties is
ErrorTagged (the claim's positive direction holds); but additionally
(2) any schema whose `$ref`-resolution declares an `allOf` list is ErrorTagged
regardless of its members' kinds, because the flattening accumulator always
carries a (possibly empty) `properties` map; and (3) for schemas without an
`allOf` list the classification tests mere presence of a `properties` key on
the `$ref`-resolved schema (so a stray or empty `properties` key also tags).
Every other resolved schema is ErrorPlain. -/
theorem errorClassification_amended :
    (∀ spec e f, resolveErrorSchema spec e = some f →
      claimIsObjectWithProps f = true → classifyObjectError spec e = some true) ∧
    (∀ spec e e' members, refResolveOnce spec e = some e' →
      getKey e' "allOf" = some (.arr members) →
      ∀ b, classifyObjectError spec e = some b → b = true) ∧
    (∀ spec e e', refResolveOnce spec e = some e' →
      (∀ members, ¬ getKey e' "allOf" = some (.arr members)) →
      classifyObjectError spec e = some (hasKey e' "properties")) := by
  refine ⟨?_, ?_, ?_⟩
  · intro spec e f hres hclaim
    have hprops : hasKey f "properties" = true := by
      unfold claimIsObjectWithProps at hclaim
      cases f with
      | obj fs =>
        simp only [Bool.and_eq_true] at hclaim
        have hlast := hclaim.2
        unfold hasKey
        cases hprop : getKey (.obj fs) "properties" with
        | none => rw [hprop] at hlast; cases hlast
        | some v => rfl
      | null => cases hclaim
      | bool b => cases hclaim
      | num n => cases hclaim
      | str s1 => cases hclaim
      | arr l => cases hclaim
    simp only [classifyObjectError, hres, Option.map_some', hprops]
  · intro spec e e' members href hall b hb
    simp only [classifyObjectError, resolveErrorSchema, href, hall] at hb
    cases hfold : members.foldlM (mergeAllOfStep spec)
        (Json.obj [("properties", .obj []), ("required", .arr [])]) with
    | none => rw [hfold] at hb; cases hb
    | some r =>
      rw [hfold] at hb
      simp only [Option.map_some', Option.some.injEq] at hb
      rw [← hb]
      exact foldlM_mergeAllOf_props spec members _ _ rfl (by decide) r hfold
  · intro spec e e' href hnall
    simp only [classifyObjectError, resolveErrorSchema_no_allOf spec e e' href hnall,
      Option.map_some']

/-- Witness for `errorClassification_amended`: the plain explicit-properties
object schema is classified by presence of its `properties` key (hence
tagged). -/
theorem errorClassification_amended_witness :
    refResolveOnce (.obj []) objectSchemaA = some objectSchemaA ∧
      classifyObjectError (.obj []) objectSchemaA =
        some (hasKey objectSchemaA "properties") :=
  ⟨rfl, errorClassification_amended.2.2 (.obj []) objectSchemaA objectSchemaA rfl
    (fun members h => by
      rw [show getKey objectSchemaA "allOf" = none from rfl] at h
      exact Option.noConfusion h)⟩

/-- Witness for `successKey_amended`: a lone `200` success is emitted under
`"2xx"`. -/
theorem successKey_amended_witness :
    decodeKeys { successSchemas := [("200", "X")] } =
      "2xx" :: (({ successSchemas := [("200", "X")] } : OpAcc).errorSchemas.map Prod.fst ++
        ({ successSchemas := [("200", "X")] } : OpAcc).voidSchemas) :=
  successKey_amended.1 { successSchemas := [("200", "X")] } "200" "X" rfl rfl

/-! ## Claims C4 and C5 — closure and partitioner lemmas -/

theorem ReachesN_succ {deps : String → List String} {k : Nat} {a b : String}
    (h : ReachesN deps k a b) : ReachesN deps (k + 1) a b := by
  induction h with
  | refl k n => exact ReachesN.refl (k + 1) n
  | step k a b c hb hr ih => exact ReachesN.step (k + 1) a b c hb ih

theorem mem_foldl_depsAdd (deps : String → List String) (l : List String) :
    ∀ (acc : List String) (x : String),
      x ∈ l.foldl (fun acc n => (deps n).foldl addSet acc) acc ↔
        x ∈ acc ∨ ∃ s ∈ l, x ∈ deps s := by
  induction l with
  | nil => intro acc x; simp
  | cons a t ih =>
    intro acc x
    simp only [List.foldl_cons]
    rw [ih, mem_foldl_addSet]
    constructor
    · rintro ((h | h) | h)
      · exact Or.inl h
      · exact Or.inr ⟨a, List.mem_cons_self _ _, h⟩
      · obtain ⟨s, hs, hx⟩ := h
        exact Or.inr ⟨s, List.mem_cons_of_mem _ hs, hx⟩
    · rintro (h | ⟨s, hs, hx⟩)
      · exact Or.inl (Or.inl h)
      · rcases List.mem_cons.mp hs with rfl | hs'
        · exact Or.inl (Or.inr hx)
        · exact Or.inr ⟨s, hs', hx⟩

theorem mem_closureStep {deps : String → List String} {seeds : List String} {x : String} :
    x ∈ closureStep deps seeds ↔ x ∈ seeds ∨ ∃ s ∈ seeds, x ∈ deps s :=
  mem_foldl_depsAdd deps seeds seeds x

theorem mem_closureN (deps : String → List String) :
    ∀ (k : Nat) (seeds : List String) (n : String),
      n ∈ closureN deps k seeds ↔ ∃ s ∈ seeds, ReachesN deps k s n := by
  intro k
  induction k with
  | zero =>
    intro seeds n
    simp only [closureN]
    constructor
    · intro h
      exact ⟨n, h, ReachesN.refl 0 n⟩
    · rintro ⟨s, hs, hr⟩
      cases hr with
      | refl => exact hs
  | succ k ih =>
    intro seeds n
    simp only [closureN]
    rw [ih]
    constructor
    · rintro ⟨s', hs', hr⟩
      rcases mem_closureStep.mp hs' with h | ⟨s, hs, hdep⟩
      · exact ⟨s', h, ReachesN_succ hr⟩
      · exact ⟨s, hs, ReachesN.step k s s' n hdep hr⟩
    · rintro ⟨s, hs, hr⟩
      cases hr with
      | refl => exact ⟨n, mem_closureStep.mpr (Or.inl hs), ReachesN.refl k n⟩
      | step _ _ b _ hb hrb =>
        exact ⟨b, mem_closureStep.mpr (Or.inr ⟨s, hs, hb⟩), hrb⟩

theorem length_filter_mono {α : Type} (l : List α) (p q : α → Bool)
    (h : ∀ a ∈ l, p a = true → q a = true) :
    (l.filter p).length ≤ (l.filter q).length := by
  induction l with
  | nil => simp
  | cons a t ih =>
    have iht := ih fun x hx => h x (List.mem_cons_of_mem _ hx)
    simp only [List.filter_cons]
    by_cases hp : p a = true
    · rw [if_pos hp, if_pos (h a (List.mem_cons_self _ _) hp)]
      simpa using iht
    · rw [if_neg hp]
      split
      · exact Nat.le_succ_of_le iht
      · exact iht

/-! ## Claim C4 -/

/-- C4 counterexample: tag group `t1` references `A`, tag group `t2`
references `C`, and both `A` and `C` depend on `B` — so `B` is referenced
(transitively) by two tag groups and the claim's common set is `["B"]`,
non-empty; yet the generator emits **no** `_common` module at all, and instead
duplicates `B` into both tag modules. -/
theorem commonModule_claim_counterexample :
    (generateModules 1 3 (.obj []) titleOracle depsAB [opA, opC]).map
        (fun M => M.lookup "_common") = some none ∧
      ([opA, opC].mapM (parseOperation 1 (.obj []) titleOracle)).map (fun parsed =>
        claimCommonSet 3 depsAB
          ((groupByTag parsed).map fun g => (g.1, groupSchemaNames g.2))) = some ["B"] ∧
      (generateModules 1 3 (.obj []) titleOracle depsAB [opA, opC]).map
          (fun M => M.map fun m => (m.1, m.2.emittedNames)) =
        some [("t1", ["A", "B"]), ("t2", ["C", "B"])] :=
  ⟨rfl, rfl, rfl⟩

/-- C4 (amended): the `_common` module exists exactly when some name is
**directly** referenced by two or more tag groups, and then contains exactly
the dependency closure of that directly-shared set (plus the body-struct names
of error-flagged object schemas in it); every name in that closure is indeed
referenced — transitively — by at least two tag groups (the original claim's
soundness direction), but a name shared only transitively is not promoted to
`_common` and is duplicated into each referencing tag module instead. -/
theorem commonModule_amended :
    ∀ (fuel closureFuel : Nat) (spec : Json) (addSchema : String → Json → String)
      (deps : String → List String) (ops : List OperationInput)
      (parsed : List ParsedOp) (M : List (String × ModuleOut)),
      ops.mapM (parseOperation fuel spec addSchema) = some parsed →
      (∀ g ∈ groupByTag parsed, ¬ g.1 = "_common") →
      generateModules fuel closureFuel spec addSchema deps ops = some M →
      ((M.lookup "_common").isSome = true ↔
        ¬ commonSchemaNames
            ((groupByTag parsed).map fun g => (g.1, groupSchemaNames g.2)) = []) ∧
      (∀ mo, M.lookup "_common" = some mo →
        mo = commonModuleOf closureFuel deps (errorObjectsOf parsed)
          (commonSchemaNames
            ((groupByTag parsed).map fun g => (g.1, groupSchemaNames g.2)))) ∧
      (∀ n, n ∈ closureN deps closureFuel
          (commonSchemaNames
            ((groupByTag parsed).map fun g => (g.1, groupSchemaNames g.2))) →
        2 ≤ (((groupByTag parsed).map fun g => (g.1, groupSchemaNames g.2)).filter
          (fun g => n ∈ closureN deps closureFuel g.2)).length) := by
  intro fuel closureFuel spec addSchema deps ops parsed M hmap hgroups hgen
  simp only [generateModules, hmap] at hgen
  injection hgen with hM
  subst hM
  rw [lookup_foldl_setAssoc "_common" (groupByTag parsed) Prod.fst _ _ hgroups]
  refine ⟨?_, ?_, ?_⟩
  · generalize commonSchemaNames (List.map (fun g => (g.1, groupSchemaNames g.2)) (groupByTag parsed)) = C
    cases C with
    | nil => simp
    | cons a t => simp [List.lookup_cons]
  · generalize commonSchemaNames (List.map (fun g => (g.1, groupSchemaNames g.2)) (groupByTag parsed)) = C
    cases C with
    | nil => simp
    | cons a t =>
      intro mo hmo
      simp only [List.isEmpty_cons, Bool.false_eq_true, if_false, List.lookup_cons] at hmo
      simp only [beq_self_eq_true, if_true] at hmo
      exact (Option.some_inj.mp hmo).symm
  · intro n hn
    rw [mem_closureN] at hn
    obtain ⟨s, hs, hr⟩ := hn
    unfold commonSchemaNames at hs
    rw [List.mem_filter] at hs
    have hcount : 2 ≤ ((List.map (fun g => (g.1, groupSchemaNames g.2)) (groupByTag parsed)).filter
        fun g => s ∈ g.2).length := by
      have := hs.2
      simp only [decide_eq_true_eq] at this
      omega
    calc 2 ≤ ((List.map (fun g => (g.1, groupSchemaNames g.2)) (groupByTag parsed)).filter
          fun g => s ∈ g.2).length := hcount
      _ ≤ ((List.map (fun g => (g.1, groupSchemaNames g.2)) (groupByTag parsed)).filter
          fun g => n ∈ closureN deps closureFuel g.2).length := by
        apply length_filter_mono
        intro g hg hp
        simp only [decide_eq_true_eq] at hp ⊢
        exact (mem_closureN deps closureFuel g.2 n).mpr ⟨s, hp, hr⟩

/-- Witness for `commonModule_amended`, at the shared-schema spec `[opA, opA2]`
(both groups directly reference `A`): the `_common` module exists iff the
directly-shared set is non-empty. -/
theorem commonModule_amended_witness :
    (sharedModules.lookup "_common").isSome = true ↔
      ¬ commonSchemaNames
          ((groupByTag [parsedA, parsedA2]).map fun g => (g.1, groupSchemaNames g.2)) = [] :=
  (commonModule_amended 1 3 (.obj []) titleOracle depsAB [opA, opA2] [parsedA, parsedA2]
    sharedModules rfl (by decide) rfl).1

/-! ## Claim C5 -/

theorem foldl_addOp_same (t : String) :
    ∀ (ops : List ParsedOp) (l : List ParsedOp), (∀ p ∈ ops, primaryTag p = t) →
      ops.foldl addOpToGroups [(t, l)] = [(t, l ++ ops)] := by
  intro ops
  induction ops with
  | nil => intro l h; simp
  | cons p rest ih =>
    intro l h
    simp only [List.foldl_cons]
    have hp : primaryTag p = t := h p (List.mem_cons_self _ _)
    have hstep : addOpToGroups [(t, l)] p = [(t, l ++ [p])] := by
      simp [addOpToGroups, hp, List.lookup_cons]
    rw [hstep, ih (l ++ [p]) fun q hq => h q (List.mem_cons_of_mem _ hq)]
    simp

theorem groupByTag_same (t : String) (ops : List ParsedOp)
    (h : ∀ p ∈ ops, primaryTag p = t) :
    groupByTag ops = if ops.isEmpty then [] else [(t, ops)] := by
  cases ops with
  | nil => rfl
  | cons p rest =>
    unfold groupByTag
    simp only [List.foldl_cons, List.isEmpty_cons, Bool.false_eq_true, if_false]
    have hfirst : addOpToGroups [] p = [(t, [p])] := by
      simp [addOpToGroups, h p (List.mem_cons_self _ _)]
    rw [hfirst, foldl_addOp_same t rest [p] fun q hq => h q (List.mem_cons_of_mem _ hq)]
    simp

theorem commonSchemaNames_single (t : String) (names : List String) :
    commonSchemaNames [(t, names)] = [] := by
  unfold commonSchemaNames
  rw [List.filter_eq_nil_iff]
  intro n hn
  simp only [List.filter_cons, List.filter_nil]
  split <;> simp

/-- C5 counterexample: a spec whose only operation is tagged literally
`_common` has every operation in a single tag group, yet the generated module
map does contain the key `_common` (the tag's own module). -/
theorem singleTag_claim_counterexample :
    ([opCommonTag].mapM (parseOperation 1 (.obj []) titleOracle)).map
        (fun parsed => parsed.map primaryTag) = some ["_common"] ∧
      (generateModules 1 1 (.obj []) titleOracle (fun _ => []) [opCommonTag]).map
        (fun M => (M.lookup "_common").isSome) = some true :=
  ⟨rfl, rfl⟩

/-- C5 (amended): when every operation shares one primary tag and that tag is
not itself literally named `_common`, the generated module map never contains
a `_common` entry, regardless of schema reuse; (a lone tag literally named
`_common` produces a module under that key — the tag's own module, not a
shared one). -/
theorem singleTag_amended :
    ∀ (fuel closureFuel : Nat) (spec : Json) (addSchema : String → Json → String)
      (deps : String → List String) (ops : List OperationInput)
      (parsed : List ParsedOp) (t : String) (M : List (String × ModuleOut)),
      ops.mapM (parseOperation fuel spec addSchema) = some parsed →
      (∀ p ∈ parsed, primaryTag p = t) →
      ¬ t = "_common" →
      generateModules fuel closureFuel spec addSchema deps ops = some M →
      M.lookup "_common" = none := by
  intro fuel closureFuel spec addSchema deps ops parsed t M hmap htags ht hgen
  simp only [generateModules, hmap] at hgen
  injection hgen with hM
  rw [← hM, groupByTag_same t parsed htags]
  cases parsed with
  | nil => rfl
  | cons p rest =>
    simp only [List.isEmpty_cons, Bool.false_eq_true, if_false, List.map_cons, List.map_nil,
      commonSchemaNames_single, List.isEmpty_nil, if_true, List.foldl_cons, List.foldl_nil]
    rw [lookup_setAssoc_ne _ _ fun e => ht e.symm]
    rfl

/-- Witness for `singleTag_amended`, at the single-tag spec `[opA]`. -/
theorem singleTag_amended_witness : singleTagModules.lookup "_common" = none :=
  singleTag_amended 1 1 (.obj []) titleOracle (fun _ => []) [opA] [parsedA] "t1"
    singleTagModules rfl (by decide) (by decide) rfl

end OpenApiGen
